import Mathlib

/-!
Verification of the Buddy chat companion's core: the streaming chat decoder
(`src/lib/openrouter.ts`), the emotion detector (`src/lib/emotionDetector.ts`)
and the conversation orchestrator glue (`src/components/chat/ChatContainer.tsx`).

Strings are modelled as lists of characters (`Str`).  JavaScript's
`String.prototype.toLowerCase` is modelled on the ASCII range (all pattern
table entries and all claim inputs are ASCII).  `JSON.parse` is modelled by an
executable JSON parser over `Str` (`jsonParse` below).
-/

namespace Buddy

/-- Characters of a JavaScript string, in order. -/
abbrev Str := List Char

/-- Convert a Lean string literal to the `Str` model. -/
def str (s : String) : Str := s.data

/-- Does `hay` start with `needle`?  (Model of `String.prototype.startsWith`.) -/
def startsW : Str → Str → Bool
  | [], _ => true
  | _ :: _, [] => false
  | a :: as, b :: bs => a = b && startsW as bs

/-- Does `needle` occur as a contiguous substring of `hay`?
(Model of `String.prototype.includes`.) -/
def hasSub (needle : Str) : Str → Bool
  | [] => startsW needle []
  | c :: cs => startsW needle (c :: cs) || hasSub needle cs

/-- ASCII lower-casing of one character (model of `toLowerCase`; the emotion
pattern table and every claim input are ASCII). -/
def toLowerCh (c : Char) : Char :=
  if 'A' ≤ c ∧ c ≤ 'Z' then Char.ofNat (c.toNat + 32) else c

/-- Lower-case a whole string. -/
def toLowerStr (s : Str) : Str := s.map toLowerCh

/-- A regular-expression word character (`\w` = `[A-Za-z0-9_]`). -/
def isWordChar (c : Char) : Bool :=
  ('a' ≤ c ∧ c ≤ 'z') || ('A' ≤ c ∧ c ≤ 'Z') || ('0' ≤ c ∧ c ≤ '9') || c = '_'

/-- Is the character at index `j` of `hay` a word character?  Out-of-range
positions (including the virtual positions before and after the string)
count as non-word. -/
def isWordAt (hay : Str) (j : Nat) : Bool :=
  match hay.get? j with
  | some c => isWordChar c
  | none => false

/-- Does the regex boundary assertion `\b` hold between positions `j - 1`
and `j` of `hay`?  `\b` holds where word-ness changes; the edges of the
string count as non-word. -/
def bdryAt (hay : Str) (j : Nat) : Bool :=
  match j with
  | 0 => isWordAt hay 0
  | k + 1 => isWordAt hay k != isWordAt hay (k + 1)

/-- Model of `new RegExp('\\b' + kw + '\\b', 'i').test(hay)` for a keyword
`kw` containing no regex metacharacters, on an already lower-cased `hay`:
some occurrence of `kw` in `hay` is delimited by word boundaries. -/
def wordMatch (kw : Str) (hay : Str) : Bool :=
  (List.range (hay.length + 1)).any fun i =>
    startsW kw (hay.drop i) && bdryAt hay i && bdryAt hay (i + kw.length)

/-- The mood vocabulary: the six `BuddyMood` values of `store.ts` together
with the four extra moods the emotion pattern table uses. -/
inductive BuddyMood where
  | idle
  | thinking
  | talking
  | happy
  | sleepy
  | confused
  | excited
  | sad
  | surprised
  | embarrassed
deriving DecidableEq, Repr

/-- One entry of the emotion pattern table (`EmotionPattern` in
`emotionDetector.ts`). -/
structure EmotionPattern where
  mood : BuddyMood
  keywords : List Str
  phrases : List Str
  weight : Nat
deriving Repr

/-- The emotion pattern table, transcribed from `EMOTION_PATTERNS` in
`emotionDetector.ts`, in declaration order. -/
def EMOTION_PATTERNS : List EmotionPattern := [
  { mood := .excited,
    keywords := [ str "wow", str "amazing", str "incredible", str "fantastic",
      str "awesome", str "brilliant", str "excellent", str "wonderful" ],
    phrases := [ str "that's exciting", str "i can't wait", str "this is great",
      str "how exciting" ],
    weight := 3 },
  { mood := .sad,
    keywords := [ str "sorry", str "unfortunately", str "sad", str "loss",
      str "difficult", str "tough", str "hard", str "condolences", str "miss" ],
    phrases := [ str "i'm sorry to hear", str "that must be hard",
      str "my condolences", str "i understand how you feel" ],
    weight := 3 },
  { mood := .surprised,
    keywords := [ str "whoa", str "unexpected", str "really", str "seriously",
      str "no way", str "unbelievable" ],
    phrases := [ str "i didn't expect", str "that's surprising", str "wait what",
      str "are you serious" ],
    weight := 2 },
  { mood := .happy,
    keywords := [ str "great", str "good", str "nice", str "lovely", str "glad",
      str "happy", str "pleased", str "enjoy", str "love", str "congratulations",
      str "yay" ],
    phrases := [ str "well done", str "that's great", str "happy to help",
      str "glad to hear" ],
    weight := 2 },
  { mood := .confused,
    keywords := [ str "hmm", str "unclear", str "strange", str "weird", str "odd",
      str "confusing", str "puzzling" ],
    phrases := [ str "i'm not sure", str "that's strange", str "let me think",
      str "i don't understand" ],
    weight := 2 },
  { mood := .embarrassed,
    keywords := [ str "oops", str "mistake", str "wrong", str "error",
      str "apologies", str "meant" ],
    phrases := [ str "my mistake", str "i was wrong", str "let me correct",
      str "i apologize" ],
    weight := 2 },
  { mood := .thinking,
    keywords := [ str "consider", str "analyze", str "think", str "perhaps",
      str "maybe", str "might", str "possibly", str "interesting" ],
    phrases := [ str "let me think", str "good question", str "that depends",
      str "considering" ],
    weight := 1 }
]

/-- The score one pattern gets on an (already lower-cased) text: `weight * 2`
for every phrase occurring as a substring, plus `weight` for every keyword
matching as a whole word.  Transcribed from the two scoring loops of
`detectEmotion`. -/
def patternScore (lowerText : Str) (p : EmotionPattern) : Nat :=
  let s1 := p.phrases.foldl
    (fun sc ph => if hasSub ph lowerText then sc + p.weight * 2 else sc) 0
  p.keywords.foldl
    (fun sc kw => if wordMatch kw lowerText then sc + p.weight else sc) s1

/-- One step of the best-match fold of `detectEmotion`:
`if (score > 0 && (!bestMatch || score > bestMatch.score)) bestMatch = {mood, score}`. -/
def updateBest (best : Option (BuddyMood × Nat)) (mood : BuddyMood) (score : Nat) :
    Option (BuddyMood × Nat) :=
  match best with
  | none => if 0 < score then some (mood, score) else none
  | some b => if 0 < score ∧ b.2 < score then some (mood, score) else some b

/-- The `bestMatch` value computed by `detectEmotion` (mood and score). -/
def detectBest (text : Str) : Option (BuddyMood × Nat) :=
  let lowerText := toLowerStr text
  EMOTION_PATTERNS.foldl
    (fun best p => updateBest best p.mood (patternScore lowerText p)) none

/-- `detectEmotion` from `emotionDetector.ts`: the mood of the best match,
or `none` (`null`) when no pattern scored above zero. -/
def detectEmotion (text : Str) : Option BuddyMood :=
  (detectBest text).map Prod.fst

/-- `analyzeStreamingEmotion` from `emotionDetector.ts`. -/
def analyzeStreamingEmotion (fullText : Str) (currentMood : BuddyMood) : BuddyMood :=
  if fullText.length < 50 then currentMood
  else
    match detectEmotion fullText with
    | some d => if d ≠ BuddyMood.thinking then d else currentMood
    | none => currentMood

/-- Candidates per the spec's words: every pattern with its score, keeping
only those scoring above zero, in table order. -/
def specCandidates (text : Str) : List (BuddyMood × Nat) :=
  let lowerText := toLowerStr text
  (EMOTION_PATTERNS.map (fun p => (p.mood, patternScore lowerText p))).filter
    (fun c => 0 < c.2)

/-- The highest candidate score (0 when there is no candidate). -/
def specMaxScore (cands : List (BuddyMood × Nat)) : Nat :=
  cands.foldr (fun c m => Nat.max c.2 m) 0

/-- Modelled from the spec: emotion detection as the spec states it — among
the candidates, return the mood of the one with the strictly highest score,
ties won by the earlier table entry, and no mood when there is no candidate. -/
def detectEmotionSpec (text : Str) : Option BuddyMood :=
  let cands := specCandidates text
  (cands.find? (fun c => c.2 = specMaxScore cands)).map Prod.fst

/-- Merge a current best with a later candidate option, the later one winning
on a strictly higher score. -/
def mergeB (b r : Option (BuddyMood × Nat)) : Option (BuddyMood × Nat) :=
  match b, r with
  | none, r => r
  | some x, none => some x
  | some x, some y => if x.2 < y.2 then some y else some x

/-- First maximum of the positive-score candidates of a scored list: the
earliest entry whose score no later entry strictly exceeds. -/
def firstMax : List (BuddyMood × Nat) → Option (BuddyMood × Nat)
  | [] => none
  | c :: cs => if 0 < c.2 then mergeB (some c) (firstMax cs) else firstMax cs

/-! The stream decoder of `streamChat` (`openrouter.ts`).  Chunks are
modelled after text decoding, as `Str` values; every claim input is ASCII,
where a byte split and a character split coincide and the incremental
`TextDecoder` concatenates exactly. `JSON.parse` is modelled by the
executable parser below (ECMA-404 grammar: values, objects, arrays,
strings with escapes, numbers, `true`/`false`/`null`; numbers are kept as
their raw text, which the decoder never consumes). -/

/-- A parsed JSON value. -/
inductive JVal where
  | jnull
  | jbool (b : Bool)
  | jnum (raw : Str)
  | jstr (s : Str)
  | jarr (elems : List JVal)
  | jobj (fields : List (Str × JVal))

/-- JSON whitespace. -/
def jws (c : Char) : Bool := c = ' ' || c = '\t' || c = '\n' || c = '\r'

/-- Drop leading JSON whitespace. -/
def skipWs : Str → Str
  | [] => []
  | c :: cs => if jws c then skipWs cs else c :: cs

/-- Value of a hexadecimal digit. -/
def hexVal (c : Char) : Option Nat :=
  if '0' ≤ c ∧ c ≤ '9' then some (c.toNat - 48)
  else if 'a' ≤ c ∧ c ≤ 'f' then some (c.toNat - 87)
  else if 'A' ≤ c ∧ c ≤ 'F' then some (c.toNat - 55)
  else none

/-- The single-character JSON string escapes. -/
def escSimple (c : Char) : Option Char :=
  if c = '"' then some '"'
  else if c = '\\' then some '\\'
  else if c = '/' then some '/'
  else if c = 'b' then some (Char.ofNat 8)
  else if c = 'f' then some (Char.ofNat 12)
  else if c = 'n' then some '\n'
  else if c = 'r' then some '\r'
  else if c = 't' then some '\t'
  else none

/-- Parse the rest of a JSON string after its opening quote: the decoded
contents and the input after the closing quote.  Unescaped control
characters are rejected, as `JSON.parse` rejects them. -/
def parseStrRest : Str → Option (Str × Str)
  | [] => none
  | '"' :: cs => some ([], cs)
  | '\\' :: 'u' :: h1 :: h2 :: h3 :: h4 :: cs =>
    match hexVal h1, hexVal h2, hexVal h3, hexVal h4 with
    | some a, some b, some c, some d =>
      (parseStrRest cs).map
        (fun r => (Char.ofNat (((a * 16 + b) * 16 + c) * 16 + d) :: r.1, r.2))
    | _, _, _, _ => none
  | '\\' :: e :: cs =>
    match escSimple e with
    | some ch => (parseStrRest cs).map (fun r => (ch :: r.1, r.2))
    | none => none
  | c :: cs =>
    if c.toNat < 32 then none
    else (parseStrRest cs).map (fun r => (c :: r.1, r.2))

/-- Split a string into its leading decimal digits and the rest. -/
def digits : Str → Str × Str
  | [] => ([], [])
  | c :: cs =>
    if '0' ≤ c ∧ c ≤ '9' then
      let r := digits cs
      (c :: r.1, r.2)
    else ([], c :: cs)

/-- The integer part of a JSON number: `0`, or a nonzero digit followed by
digits. -/
def parseIntPart : Str → Option (Str × Str)
  | [] => none
  | c :: cs =>
    if c = '0' then some ([c], cs)
    else if '1' ≤ c ∧ c ≤ '9' then
      let r := digits cs
      some (c :: r.1, r.2)
    else none

/-- The optional fraction part of a JSON number. -/
def parseFracPart : Str → Option (Str × Str)
  | '.' :: cs =>
    match digits cs with
    | ([], _) => none
    | (d, r) => some ('.' :: d, r)
  | s => some ([], s)

/-- The optional exponent part of a JSON number. -/
def parseExpPart : Str → Option (Str × Str)
  | [] => some ([], [])
  | c :: cs =>
    if c = 'e' ∨ c = 'E' then
      match cs with
      | [] => none
      | sgn :: cs2 =>
        if sgn = '+' ∨ sgn = '-' then
          match digits cs2 with
          | ([], _) => none
          | (d, r) => some (c :: sgn :: d, r)
        else
          match digits cs with
          | ([], _) => none
          | (d, r) => some (c :: d, r)
    else some ([], c :: cs)

/-- A JSON number: its raw text and the remaining input. -/
def parseNumber (s : Str) : Option (Str × Str) :=
  let negRest : Str × Str := match s with
    | '-' :: cs => (['-'], cs)
    | _ => ([], s)
  match parseIntPart negRest.2 with
  | none => none
  | some (ip, r1) =>
    match parseFracPart r1 with
    | none => none
    | some (fp, r2) =>
      match parseExpPart r2 with
      | none => none
      | some (ep, r3) => some (negRest.1 ++ ip ++ fp ++ ep, r3)

mutual

/-- Parse one JSON value (after optional whitespace), fuelled. -/
def parseVal : Nat → Str → Option (JVal × Str)
  | 0, _ => none
  | f + 1, s =>
    match skipWs s with
    | [] => none
    | c :: cs =>
      if c = '\x7b' then
        match skipWs cs with
        | '\x7d' :: r => some (.jobj [], r)
        | _ => (parseObjItems f cs).map (fun r => (.jobj r.1, r.2))
      else if c = '[' then
        match skipWs cs with
        | ']' :: r => some (.jarr [], r)
        | _ => (parseArrItems f cs).map (fun r => (.jarr r.1, r.2))
      else if c = '"' then
        (parseStrRest cs).map (fun r => (.jstr r.1, r.2))
      else if startsW (str "true") (c :: cs) then
        some (.jbool true, (c :: cs).drop 4)
      else if startsW (str "false") (c :: cs) then
        some (.jbool false, (c :: cs).drop 5)
      else if startsW (str "null") (c :: cs) then
        some (.jnull, (c :: cs).drop 4)
      else
        (parseNumber (c :: cs)).map (fun r => (.jnum r.1, r.2))

/-- Parse the comma-separated items of a nonempty JSON array, up to and
including the closing bracket. -/
def parseArrItems : Nat → Str → Option (List JVal × Str)
  | 0, _ => none
  | f + 1, s =>
    match parseVal f s with
    | none => none
    | some (v, r) =>
      match skipWs r with
      | ',' :: r2 => (parseArrItems f r2).map (fun t => (v :: t.1, t.2))
      | ']' :: r2 => some ([v], r2)
      | _ => none

/-- Parse the comma-separated fields of a nonempty JSON object, up to and
including the closing brace. -/
def parseObjItems : Nat → Str → Option (List (Str × JVal) × Str)
  | 0, _ => none
  | f + 1, s =>
    match skipWs s with
    | '"' :: r =>
      match parseStrRest r with
      | none => none
      | some (k, r1) =>
        match skipWs r1 with
        | ':' :: r2 =>
          match parseVal f r2 with
          | none => none
          | some (v, r3) =>
            match skipWs r3 with
            | ',' :: r4 => (parseObjItems f r4).map (fun t => ((k, v) :: t.1, t.2))
            | '\x7d' :: r4 => some ([(k, v)], r4)
            | _ => none
        | _ => none
    | _ => none

end

/-- Model of `JSON.parse`: parse one value, allow trailing whitespace,
reject trailing content.  The fuel `s.length + 1` covers any input, since
every recursive call consumes at least one character. -/
def jsonParse (s : Str) : Option JVal :=
  match parseVal (s.length + 1) s with
  | some (v, rest) => if skipWs rest = [] then some v else none
  | none => none

/-- Last-binding lookup in a JSON object's field list (`JSON.parse` keeps
the last duplicate key). -/
def objLookup (fields : List (Str × JVal)) (k : Str) : Option JVal :=
  match fields with
  | [] => none
  | (k2, v) :: rest =>
    match objLookup rest k with
    | some v2 => some v2
    | none => if k2 = k then some v else none

/-- JavaScript property access `j[k]` as observed by the decoder: a field of
an object, `undefined` (`none`) otherwise.  Access on `null` throws, but the
decoder's surrounding `try` turns that into the same observable skip. -/
def getProp (j : JVal) (k : Str) : Option JVal :=
  match j with
  | .jobj fs => objLookup fs k
  | _ => none

/-- JavaScript indexing `j[0]` as observed by the decoder: the first array
element; the `"0"` field of a plain object; the one-character string for a
string; `undefined` (`none`) otherwise (again, a throw on `null` is caught
by the decoder and observably equal to `none`). -/
def index0 (j : JVal) : Option JVal :=
  match j with
  | .jarr els => els.head?
  | .jobj fs => objLookup fs (str "0")
  | .jstr s => (s.head?).map (fun c => .jstr [c])
  | _ => none

/-- Model of `chunk.choices[0]?.delta?.content` restricted to string
results (the event type declares `content` a string; a non-string value
yields no fragment, as does any step that is `undefined`/`null` or
throws inside the decoder's `try`). -/
def extractContent (j : JVal) : Option Str :=
  match getProp j (str "choices") with
  | none => none
  | some ch =>
    match index0 ch with
    | none => none
    | some e =>
      match getProp e (str "delta") with
      | none => none
      | some d =>
        match getProp d (str "content") with
        | some (.jstr s) => some s
        | _ => none

/-- What processing one complete line does. -/
inductive LineResult where
  | sentinel
  | skip
  | frag (s : Str)
deriving DecidableEq

/-- The `data: ` event header. -/
def dataHdr : Str := str "data: "

/-- Decode one complete line, as the loop body of `streamChat` does:
`data: `-lines only; the payload `[DONE]` terminates; a payload whose JSON
parse or field navigation fails is skipped; a truthy (non-empty) content
string is a fragment. -/
def decodeLine (line : Str) : LineResult :=
  if startsW dataHdr line then
    let d := line.drop 6
    if d = str "[DONE]" then .sentinel
    else
      match jsonParse d with
      | none => .skip
      | some j =>
        match extractContent j with
        | some s => if s = [] then .skip else .frag s
        | none => .skip
  else .skip

/-- Model of `buffer.split('\n')`: the newline-separated segments of a
string, with empty segments kept (`splitNl [] = [[]]`, and a trailing
newline yields a final empty segment). -/
def splitNl : Str → List Str
  | [] => [[]]
  | c :: rest =>
    if c = '\n' then [] :: splitNl rest
    else
      match splitNl rest with
      | [] => [[c]]
      | h :: t => (c :: h) :: t

/-- Process the complete lines extracted from the buffer, in order,
stopping at the sentinel: the fragments yielded and whether the sentinel
was reached (the generator's `return`). -/
def processLines : List Str → List Str × Bool
  | [] => ([], false)
  | l :: ls =>
    match decodeLine l with
    | .sentinel => ([], true)
    | .skip => processLines ls
    | .frag s =>
      let r := processLines ls
      (s :: r.1, r.2)

/-- The last segment of a split (`lines.pop() || ''`): the retained buffer. -/
def lastSeg : List Str → Str
  | [] => []
  | [x] => x
  | _ :: x :: xs => lastSeg (x :: xs)

/-- The read loop of `streamChat`: with accumulation buffer `buf`, consume
the chunks in order; each chunk is appended to the buffer, which is split
on newlines, the last (possibly incomplete) segment is retained, and the
complete lines are processed.  When the reader reports done the loop
breaks, dropping whatever remains in the buffer; at the sentinel the
generator returns, reading no further chunk. -/
def runDecoder : Str → List Str → List Str
  | _, [] => []
  | buf, c :: cs =>
    let lines := splitNl (buf ++ c)
    let res := processLines lines.dropLast
    if res.2 then res.1
    else res.1 ++ runDecoder (lastSeg lines) cs

/-- The fragment sequence `streamChat` yields from a decoded chunk
sequence. -/
def streamDecode (chunks : List Str) : List Str := runDecoder [] chunks

/-- The decoder-relevant surface of the HTTP response `streamChat`
receives: success flag and status, the parsed JSON error body (`none`
when the body is not JSON — `response.json().catch(() => ({}))` then
yields an empty object), and the decoded body chunks (`none` when the
body is not readable). -/
structure HttpResponse where
  ok : Bool
  status : Nat
  errorBody : Option JVal
  body : Option (List Str)

/-- Decimal rendering of a status code. -/
def natToStr (n : Nat) : Str := (toString n).data

/-- The generic status-coded failure message. -/
def failMsg (status : Nat) : Str := str "Chat request failed: " ++ natToStr status

/-- The server-reported message `error.error?.message` when it is a truthy
string (the `||` fallback treats the empty string as absent). -/
def serverMsg (errorBody : Option JVal) : Option Str :=
  match getProp (errorBody.getD (.jobj [])) (str "error") with
  | none => none
  | some ej =>
    match getProp ej (str "message") with
    | some (.jstr m) => if m = [] then none else some m
    | _ => none

/-- `streamChat` from `openrouter.ts`, as a function of the received
response: a non-ok status throws the server-reported message or the
status-coded one; an unreadable body throws; otherwise the decoded
fragment sequence is produced. -/
def streamChat (resp : HttpResponse) : Except Str (List Str) :=
  if resp.ok = false then
    .error ((serverMsg resp.errorBody).getD (failMsg resp.status))
  else
    match resp.body with
    | none => .error (str "Response body is not readable")
    | some chunks => .ok (streamDecode chunks)

/-- The single content-event line for fragment `s` (no trailing newline):
`data: ` followed by the standard delta-content JSON payload. -/
def eventLine (s : Str) : Str :=
  str "data: \x7b\"choices\":[\x7b\"delta\":\x7b\"content\":\"" ++ s ++ str "\"\x7d\x7d]\x7d"

/-- The sentinel line (no trailing newline). -/
def sentinelLine : Str := str "data: [DONE]"

/-! The conversation orchestrator (`ChatContainer.tsx`): outgoing message
list construction and the turn's effect on the conversation and the mood.
Message ids and timestamps play no role in the modelled behavior (ids are
fresh, so the in-place update by id updates the placeholder appended last);
persistence, the streaming flag and the 3-second idle timer are outside
the model. -/

/-- Message roles. -/
inductive Role where
  | system
  | user
  | assistant
deriving DecidableEq, Repr

/-- An outgoing chat message (`ChatMessage` in `openrouter.ts`). -/
structure ChatMessage where
  role : Role
  content : Str
deriving DecidableEq, Repr

/-- A stored conversation message (`Message` in `store.ts`), ids modelled
as naturals. -/
structure StoreMessage where
  id : Nat
  role : Role
  content : Str
  timestamp : Nat
deriving DecidableEq, Repr

/-- The role/content projection `handleSubmit` applies to prior
messages. -/
def toChatMessage (m : StoreMessage) : ChatMessage :=
  { role := m.role, content := m.content }

/-- The outgoing message list built by `handleSubmit` (lines 89–96 of
`ChatContainer.tsx`): the system prompt, then `messages.slice(-20)`
projected to role/content, then the new user message.  `slice(-20)` on a
list of length `L` starts at `max (L - 20) 0`, i.e. drops `L - 20` in
truncated subtraction. -/
def buildChatMessages (systemPrompt : Str) (messages : List StoreMessage)
    (userMessage : Str) : List ChatMessage :=
  { role := .system, content := systemPrompt }
    :: (messages.drop (messages.length - 20)).map toChatMessage
    ++ [ { role := .user, content := userMessage } ]

/-- Modelled from the spec: "the last prior turns capped at 20, in their
original order" — the final `n` elements of a list. -/
def lastUpTo {α : Type} (n : Nat) (l : List α) : List α :=
  (l.reverse.take n).reverse

/-- How a turn's stream terminates: normal completion, an `AbortError`
raised through the cancellation signal, or any other mid-stream
exception. -/
inductive TurnEnd where
  | completed
  | aborted
  | failed (msg : Str)
deriving DecidableEq

/-- The observable outcome of one turn: the conversation (role/content in
order) and the mood. -/
structure TurnResult where
  messages : List ChatMessage
  mood : BuddyMood
deriving DecidableEq

/-- The accumulated assistant content (`assistantContent`) after a list of
fragments. -/
def concatStr (frags : List Str) : Str := frags.foldl (fun a c => a ++ c) []

/-- The mood after the streaming loop: starting from `talking` (set before
the loop), each fragment arrival runs `analyzeStreamingEmotion` on the
accumulated content and applies the result when it differs from
`talking`. -/
def streamMood (frags : List Str) : BuddyMood :=
  (frags.foldl
    (fun (acc : Str × BuddyMood) ch =>
      let content := acc.1 ++ ch
      let d := analyzeStreamingEmotion content .talking
      (content, if d ≠ BuddyMood.talking then d else acc.2))
    ([], BuddyMood.talking)).2

/-- The error-indicator message content of the catch branch. -/
def errText (msg : Str) : Str := str "Oops, something went wrong: " ++ msg

/-- One turn of `handleSubmit` (lines 101–160 of `ChatContainer.tsx`),
given the fragments delivered before the stream ended and how it ended:
the user message and the assistant placeholder are appended, the
placeholder accumulates the fragments in place; an `AbortError` leaves
messages and mood as the loop produced them; any other failure forces the
`confused` mood and appends the error-indicator message; normal completion
re-infers the mood with a `happy` default. -/
def runTurn (prior : List ChatMessage) (userMessage : Str) (frags : List Str)
    (ending : TurnEnd) : TurnResult :=
  let partialText := concatStr frags
  let base := prior ++
    [ { role := .user, content := userMessage },
      { role := .assistant, content := partialText } ]
  match ending with
  | .completed =>
    { messages := base, mood := analyzeStreamingEmotion partialText .happy }
  | .aborted =>
    { messages := base, mood := streamMood frags }
  | .failed msg =>
    { messages := base ++ [ { role := .assistant, content := errText msg } ],
      mood := .confused }

theorem mergeB_none (b : Option (BuddyMood × Nat)) : mergeB b none = b := by
  cases b <;> rfl

theorem mergeB_assoc (a b c : Option (BuddyMood × Nat)) :
    mergeB (mergeB a b) c = mergeB a (mergeB b c) := by
  rcases a with _ | x
  · rfl
  rcases b with _ | y
  · rfl
  rcases c with _ | z
  · rw [mergeB_none, mergeB_none]
  by_cases h1 : x.2 < y.2 <;> by_cases h2 : y.2 < z.2 <;> by_cases h3 : x.2 < z.2 <;>
      simp only [mergeB, h1, h2, h3, if_true, if_false] <;>
    first
      | rfl
      | (exact absurd (Nat.lt_trans h1 h2) h3)
      | (exact absurd (Nat.lt_of_lt_of_le h3 (Nat.le_of_not_lt h2)) h1)

theorem updateBest_eq_mergeB (b : Option (BuddyMood × Nat)) (m : BuddyMood) (s : Nat) :
    updateBest b m s = if 0 < s then mergeB b (some (m, s)) else b := by
  rcases b with _ | x
  · simp only [updateBest, mergeB]
  · simp only [updateBest, mergeB]
    by_cases h1 : 0 < s <;> by_cases h2 : x.2 < s <;>
      simp [h1, h2]

theorem foldl_updateBest (l : List (BuddyMood × Nat)) :
    ∀ b, l.foldl (fun b c => updateBest b c.1 c.2) b = mergeB b (firstMax l) := by
  induction l with
  | nil => intro b; simp [List.foldl_nil, firstMax, mergeB_none]
  | cons c cs ih =>
    intro b
    rw [List.foldl_cons, ih, updateBest_eq_mergeB]
    by_cases h : 0 < c.2
    · simp only [firstMax, if_pos h, mergeB_assoc]
    · simp only [firstMax, if_neg h]

theorem mergeB_eq_none (b r : Option (BuddyMood × Nat)) :
    mergeB b r = none ↔ b = none ∧ r = none := by
  rcases b with _ | x
  · simp [mergeB]
  rcases r with _ | y
  · simp [mergeB]
  simp only [mergeB]
  split_ifs <;> simp

theorem firstMax_none_iff (l : List (BuddyMood × Nat)) :
    firstMax l = none ↔ l.filter (fun c => 0 < c.2) = [] := by
  induction l with
  | nil => simp [firstMax]
  | cons c cs ih =>
    by_cases h : 0 < c.2
    · simp [firstMax, h, mergeB_eq_none]
    · simp only [firstMax, if_neg h, List.filter_cons]
      rw [if_neg (by simpa using h)]
      exact ih

theorem specMaxScore_cons (c : BuddyMood × Nat) (l : List (BuddyMood × Nat)) :
    specMaxScore (c :: l) = Nat.max c.2 (specMaxScore l) := rfl

theorem firstMax_score (l : List (BuddyMood × Nat)) :
    ∀ y, firstMax l = some y → y.2 = specMaxScore (l.filter (fun c => 0 < c.2)) := by
  induction l with
  | nil => intro y hy; simp [firstMax] at hy
  | cons c cs ih =>
    intro y hy
    by_cases h : 0 < c.2
    · simp only [firstMax, if_pos h] at hy
      rw [List.filter_cons, if_pos (by simpa using h), specMaxScore_cons]
      cases hfm : firstMax cs with
      | none =>
        rw [hfm, mergeB_none] at hy
        have hnil := (firstMax_none_iff cs).mp hfm
        cases hy
        rw [hnil]
        exact (Nat.max_eq_left (Nat.zero_le _)).symm
      | some y' =>
        rw [hfm] at hy
        have hy' := ih y' hfm
        simp only [mergeB] at hy
        split_ifs at hy with hlt
        · cases hy
          have hle : c.2 ≤ specMaxScore (cs.filter (fun c => 0 < c.2)) := by
            rw [← hy']; exact Nat.le_of_lt hlt
          exact hy'.trans (Nat.max_eq_right hle).symm
        · cases hy
          have hge : specMaxScore (cs.filter (fun c => 0 < c.2)) ≤ c.2 := by
            rw [← hy']; exact Nat.le_of_not_lt hlt
          exact (Nat.max_eq_left hge).symm
    · simp only [firstMax, if_neg h] at hy
      rw [List.filter_cons, if_neg (by simpa using h)]
      exact ih y hy

theorem firstMax_eq_find (l : List (BuddyMood × Nat)) :
    firstMax l =
      (l.filter (fun c => 0 < c.2)).find?
        (fun c => c.2 = specMaxScore (l.filter (fun c => 0 < c.2))) := by
  induction l with
  | nil => simp [firstMax]
  | cons c cs ih =>
    by_cases h : 0 < c.2
    · simp only [firstMax, if_pos h]
      rw [List.filter_cons, if_pos (by simpa using h)]
      cases hfm : firstMax cs with
      | none =>
        have hnil := (firstMax_none_iff cs).mp hfm
        rw [mergeB_none]
        simp [hnil, specMaxScore, List.find?]
      | some y' =>
        have hy' := firstMax_score cs y' hfm
        rw [hfm] at ih
        simp only [mergeB]
        by_cases hlt : c.2 < y'.2
        · rw [if_pos hlt]
          have hle : c.2 ≤ specMaxScore (cs.filter (fun c => 0 < c.2)) := by
            rw [← hy']; exact Nat.le_of_lt hlt
          have hmax : specMaxScore (c :: cs.filter (fun c => 0 < c.2)) =
              specMaxScore (cs.filter (fun c => 0 < c.2)) := by
            rw [specMaxScore_cons]; exact Nat.max_eq_right hle
          rw [hmax, List.find?_cons_of_neg, ← ih]
          simp only [decide_eq_true_eq]
          omega
        · rw [if_neg hlt]
          have hge : specMaxScore (cs.filter (fun c => 0 < c.2)) ≤ c.2 := by
            rw [← hy']; exact Nat.le_of_not_lt hlt
          have hmax : specMaxScore (c :: cs.filter (fun c => 0 < c.2)) = c.2 := by
            rw [specMaxScore_cons]; exact Nat.max_eq_left hge
          rw [hmax, List.find?_cons_of_pos]
          simp
    · simp only [firstMax, if_neg h]
      rw [List.filter_cons, if_neg (by simpa using h)]
      exact ih

theorem mergeB_none_left (r : Option (BuddyMood × Nat)) : mergeB none r = r := rfl

/-- C2: `detectEmotion` coincides with the spec's reference description
(candidates are the positively-scoring patterns in table order; the winner
has the strictly highest score, ties going to the earlier table entry,
`none` without candidates), and a keyword embedded inside a longer word
contributes nothing (the keyword "scar" does not match inside "scary", and
the sad keyword "hard" embedded in "hardship" leaves every pattern at
score zero). -/
theorem detectEmotion_eq_spec :
    (∀ t : Str, detectEmotion t = detectEmotionSpec t) ∧
    wordMatch (str "scar") (str "scary") = false ∧
    detectEmotion (str "hardship") = none := by
  refine ⟨fun t => ?_, by decide, by decide⟩
  have h1 : detectBest t =
      ((EMOTION_PATTERNS.map fun p => (p.mood, patternScore (toLowerStr t) p)).foldl
        (fun b c => updateBest b c.1 c.2) none) := by
    rw [List.foldl_map]
    rfl
  simp only [detectEmotion, detectEmotionSpec, specCandidates]
  rw [h1, foldl_updateBest, mergeB_none_left, firstMax_eq_find]

/-- C3: below 50 accumulated characters the streaming inference returns the
current mood unchanged; from 50 on it returns the detected mood unless that
is absent or `thinking`, in which case the current mood is kept. -/
theorem analyzeStreamingEmotion_threshold (t : Str) (m : BuddyMood) :
    (t.length < 50 → analyzeStreamingEmotion t m = m) ∧
    (50 ≤ t.length → analyzeStreamingEmotion t m =
      (match detectEmotion t with
       | some d => if d = BuddyMood.thinking then m else d
       | none => m)) := by
  constructor
  · intro h
    simp [analyzeStreamingEmotion, h]
  · intro h
    simp only [analyzeStreamingEmotion, if_neg (Nat.not_lt.mpr h)]
    cases hd : detectEmotion t with
    | none => rfl
    | some d =>
      by_cases hth : d = BuddyMood.thinking <;> simp [hth]

/-- C3 witness: at the concrete short text "hi" the current mood survives,
and at a concrete 61-character sad text the detector's verdict wins. -/
theorem analyzeStreamingEmotion_threshold_witness :
    ((str "hi").length < 50 ∧
      analyzeStreamingEmotion (str "hi") BuddyMood.happy = BuddyMood.happy) ∧
    (50 ≤ (str "i'm sorry to hear about your loss, that must be hard for you").length ∧
      analyzeStreamingEmotion (str "i'm sorry to hear about your loss, that must be hard for you")
        BuddyMood.talking = BuddyMood.sad) := by
  refine ⟨⟨by decide, (analyzeStreamingEmotion_threshold _ _).1 (by decide)⟩,
    ⟨by decide, ?_⟩⟩
  rw [(analyzeStreamingEmotion_threshold _ _).2 (by decide)]
  decide

/-- C4 counterexample: on the text "that must be hard" the sad pattern's
total score is 9 (phrase 3 × 2 plus the whole-word keyword "hard" at 3),
not 6 as the claim states. -/
theorem sad_phrase_score_counterexample :
    detectBest (str "that must be hard") ≠ some (BuddyMood.sad, 6) ∧
    detectBest (str "that must be hard") = some (BuddyMood.sad, 9) := by
  decide

/-- C4 amended: on the text "that must be hard" emotion detection selects
`sad` with total score exactly 9 (the phrase contributes weight 3 × 2 = 6
and the embedded whole-word keyword "hard" a further 3), strictly greater
than every other pattern's score, all of which are zero. -/
theorem sad_phrase_score_amended :
    detectBest (str "that must be hard") = some (BuddyMood.sad, 9) ∧
    detectEmotion (str "that must be hard") = some BuddyMood.sad ∧
    (EMOTION_PATTERNS.all fun p =>
      decide (p.mood = BuddyMood.sad) ||
        decide (patternScore (toLowerStr (str "that must be hard")) p = 0)) = true := by
  decide

theorem patternScore_congr (p : EmotionPattern) (a b : Str)
    (hph : ∀ ph ∈ p.phrases, hasSub ph a = hasSub ph b)
    (hkw : ∀ kw ∈ p.keywords, wordMatch kw a = wordMatch kw b) :
    patternScore a p = patternScore b p := by
  simp only [patternScore]
  have h1 : p.phrases.foldl (fun sc ph => if hasSub ph a then sc + p.weight * 2 else sc) 0 =
      p.phrases.foldl (fun sc ph => if hasSub ph b then sc + p.weight * 2 else sc) 0 :=
    List.foldl_ext _ _ 0 (fun sc ph hm => by rw [hph ph hm])
  rw [h1]
  exact List.foldl_ext _ _ _ (fun sc kw hm => by rw [hkw kw hm])

/-- C9: a pattern's score, the best match and the selected mood depend only
on which phrases occur and which keywords word-match — each element counts
at most once, so occurrence multiplicity never affects the result. -/
theorem patternScore_multiplicity_free (t1 t2 : Str)
    (h : ∀ p ∈ EMOTION_PATTERNS,
      (∀ ph ∈ p.phrases, hasSub ph (toLowerStr t1) = hasSub ph (toLowerStr t2)) ∧
      (∀ kw ∈ p.keywords, wordMatch kw (toLowerStr t1) = wordMatch kw (toLowerStr t2))) :
    (∀ p ∈ EMOTION_PATTERNS,
      patternScore (toLowerStr t1) p = patternScore (toLowerStr t2) p) ∧
    detectBest t1 = detectBest t2 ∧ detectEmotion t1 = detectEmotion t2 := by
  have hs : ∀ p ∈ EMOTION_PATTERNS,
      patternScore (toLowerStr t1) p = patternScore (toLowerStr t2) p :=
    fun p hp => patternScore_congr p _ _ (h p hp).1 (h p hp).2
  have hb : detectBest t1 = detectBest t2 := by
    simp only [detectBest]
    exact List.foldl_ext _ _ none (fun b p hp => by rw [hs p hp])
  exact ⟨hs, hb, by simp only [detectEmotion, hb]⟩

/-- C9 witness: "wow wow wow" and "wow" have identical phrase and keyword
presence, hence the same detected mood. -/
theorem patternScore_multiplicity_free_witness :
    (∀ p ∈ EMOTION_PATTERNS,
      (∀ ph ∈ p.phrases,
        hasSub ph (toLowerStr (str "wow wow wow")) = hasSub ph (toLowerStr (str "wow"))) ∧
      (∀ kw ∈ p.keywords,
        wordMatch kw (toLowerStr (str "wow wow wow")) = wordMatch kw (toLowerStr (str "wow")))) ∧
    detectEmotion (str "wow wow wow") = detectEmotion (str "wow") :=
  ⟨by decide, (patternScore_multiplicity_free _ _ (by decide)).2.2⟩

theorem splitNl_ne_nil (s : Str) : splitNl s ≠ [] := by
  cases s with
  | nil => simp [splitNl]
  | cons c cs =>
    simp only [splitNl]
    split_ifs
    · simp
    · cases h : splitNl cs with
      | nil => simp
      | cons a t => simp

theorem splitNl_mem_no_nl (s : Str) : ∀ d ∈ splitNl s, '\n' ∉ d := by
  induction s with
  | nil =>
    intro d hd
    simp only [splitNl, List.mem_singleton] at hd
    subst hd
    simp
  | cons c cs ih =>
    intro d hd
    by_cases hc : c = '\n'
    · simp only [splitNl, if_pos hc] at hd
      rcases List.mem_cons.mp hd with h1 | h2
      · subst h1; simp
      · exact ih d h2
    · simp only [splitNl, if_neg hc] at hd
      cases h : splitNl cs with
      | nil => exact absurd h (splitNl_ne_nil cs)
      | cons a t =>
        rw [h] at hd
        rcases List.mem_cons.mp hd with h1 | h2
        · subst h1
          intro hmem
          rcases List.mem_cons.mp hmem with h3 | h4
          · exact hc h3.symm
          · exact ih a (h ▸ List.mem_cons_self a t) h4
        · exact ih d (h ▸ List.mem_cons_of_mem a h2)

theorem lastSeg_mem {l : List Str} (h : l ≠ []) : lastSeg l ∈ l := by
  induction l with
  | nil => contradiction
  | cons a t ih =>
    cases t with
    | nil => simp [lastSeg]
    | cons b t2 =>
      exact List.mem_cons_of_mem a (ih (List.cons_ne_nil b t2))

theorem splitNl_lastSeg_no_nl (s : Str) : '\n' ∉ lastSeg (splitNl s) :=
  splitNl_mem_no_nl s _ (lastSeg_mem (splitNl_ne_nil s))

theorem splitNl_append_nl (l r : Str) (hl : '\n' ∉ l) :
    splitNl (l ++ '\n' :: r) = l :: splitNl r := by
  induction l with
  | nil => simp [splitNl]
  | cons c cs ih =>
    have hc : c ≠ '\n' := fun hh => hl (hh ▸ List.mem_cons_self c cs)
    have hcs : '\n' ∉ cs := fun hh => hl (List.mem_cons_of_mem c hh)
    simp only [List.cons_append, splitNl, if_neg hc, List.append_eq]
    rw [ih hcs]

theorem splitNl_no_nl (s : Str) (h : '\n' ∉ s) : splitNl s = [s] := by
  induction s with
  | nil => rfl
  | cons c cs ih =>
    have hc : c ≠ '\n' := fun hh => h (hh ▸ List.mem_cons_self c cs)
    have hcs : '\n' ∉ cs := fun hh => h (List.mem_cons_of_mem c hh)
    simp only [splitNl, if_neg hc, ih hcs]

theorem runDecoder_append_no_nl (cs : List Str) :
    ∀ b t, '\n' ∉ b → '\n' ∉ t → runDecoder b (cs ++ [t]) = runDecoder b cs := by
  induction cs with
  | nil =>
    intro b t hb ht
    have hbt : '\n' ∉ b ++ t := by
      intro hm
      rcases List.mem_append.mp hm with h | h
      · exact hb h
      · exact ht h
    simp only [List.nil_append, runDecoder]
    rw [splitNl_no_nl _ hbt]
    simp [processLines, runDecoder]
  | cons c cs ih =>
    intro b t hb ht
    simp only [List.cons_append, runDecoder, List.append_eq]
    rw [ih (lastSeg (splitNl (b ++ c))) t (splitNl_lastSeg_no_nl _) ht]

theorem decodeLine_sentinel : decodeLine sentinelLine = .sentinel := by decide

theorem runDecoder_events (lines frs : List Str)
    (h : List.Forall₂ (fun l s => decodeLine l = .frag s ∧ '\n' ∉ l) lines frs) :
    ∀ (tail : Str) (more : List Str),
      runDecoder []
        (lines.map (fun l => l ++ [ '\n' ]) ++ (sentinelLine ++ '\n' :: tail) :: more)
        = frs := by
  induction h with
  | nil =>
    intro tail more
    simp only [List.map_nil, List.nil_append, runDecoder]
    rw [splitNl_append_nl _ _ (by decide)]
    cases hsp : splitNl tail with
    | nil => exact absurd hsp (splitNl_ne_nil tail)
    | cons x xs =>
      simp [List.dropLast_cons₂, processLines, decodeLine_sentinel]
  | cons h1 h2 ih =>
    intro tail more
    simp only [List.map_cons, List.cons_append, runDecoder, List.nil_append]
    rw [show ([ '\n' ] : Str) = '\n' :: [] from rfl, splitNl_append_nl _ _ h1.2]
    simp only [splitNl, processLines, h1.1, List.dropLast, lastSeg, List.append_eq]
    rw [ih tail more]
    simp

/-- C7: a stream of content-event lines followed by the sentinel yields
exactly those fragments and completes without error; lines after the
sentinel in the same chunk and any later chunks are never consumed. -/
theorem streamChat_sentinel_termination
    (lines frs : List Str) (tail : Str) (more : List Str) (st : Nat) (eb : Option JVal)
    (h : List.Forall₂ (fun l s => decodeLine l = .frag s ∧ '\n' ∉ l) lines frs) :
    streamChat
      { ok := true, status := st, errorBody := eb,
        body := some (lines.map (fun l => l ++ [ '\n' ])
          ++ (sentinelLine ++ '\n' :: tail) :: more) }
      = .ok frs := by
  have hd := runDecoder_events lines frs h tail more
  simp [streamChat, streamDecode, hd]

/-- C7 witness: two concrete content events, then the sentinel with junk
after it in the same chunk and a further chunk, give exactly the two
fragments. -/
theorem streamChat_sentinel_termination_witness :
    streamChat
      { ok := true, status := 200, errorBody := none,
        body := some ([eventLine (str "Hi"), eventLine (str "Yo")].map (fun l => l ++ [ '\n' ])
          ++ (sentinelLine ++ '\n' :: str "data: ignored tail") :: [ str "later chunk" ]) }
      = .ok [ str "Hi", str "Yo" ] :=
  streamChat_sentinel_termination [eventLine (str "Hi"), eventLine (str "Yo")]
    [ str "Hi", str "Yo" ] (str "data: ignored tail") [ str "later chunk" ] 200 none
    (List.Forall₂.cons ⟨by decide, by decide⟩
      (List.Forall₂.cons ⟨by decide, by decide⟩ List.Forall₂.nil))

set_option maxRecDepth 10000 in
/-- C1: the single content event for "Hi" with its newline, split into two
chunks at any offset, decodes to exactly the fragment "Hi" — the same as
feeding it whole. -/
theorem streamDecode_chunk_split_invariant :
    (∀ i, i ≤ (eventLine (str "Hi") ++ [ '\n' ]).length →
      streamDecode [(eventLine (str "Hi") ++ [ '\n' ]).take i,
        (eventLine (str "Hi") ++ [ '\n' ]).drop i] = [ str "Hi" ]) ∧
    streamDecode [eventLine (str "Hi") ++ [ '\n' ]] = [ str "Hi" ] := by
  constructor
  · decide
  · decide

/-- C1 witness: the split at offset 7 (inside the `data: ` payload). -/
theorem streamDecode_chunk_split_invariant_witness :
    7 ≤ (eventLine (str "Hi") ++ [ '\n' ]).length ∧
    streamDecode [(eventLine (str "Hi") ++ [ '\n' ]).take 7,
      (eventLine (str "Hi") ++ [ '\n' ]).drop 7] = [ str "Hi" ] :=
  ⟨by decide, streamDecode_chunk_split_invariant.1 7 (by decide)⟩

/-- C8: a non-ok response throws the server-reported message when present
(else the status-coded one) before any fragment; a missing body throws;
and a malformed `data:` line between two valid events yields no fragment
and no error, both neighbours still being delivered. -/
theorem streamChat_error_surface :
    (∀ resp : HttpResponse, resp.ok = false →
      streamChat resp = .error ((serverMsg resp.errorBody).getD (failMsg resp.status))) ∧
    (∀ resp : HttpResponse, resp.ok = true → resp.body = none →
      streamChat resp = .error (str "Response body is not readable")) ∧
    streamDecode [eventLine (str "A") ++ '\n' :: str "data: \x7bnot valid json\x7d"
      ++ '\n' :: eventLine (str "B") ++ [ '\n' ]] = [ str "A", str "B" ] := by
  refine ⟨?_, ?_, by decide⟩
  · intro resp h
    simp [streamChat, h]
  · intro resp h hb
    simp [streamChat, h, hb]

/-- C8 witness: a 402 with a server-reported message surfaces that message;
an ok response without a readable body surfaces the dedicated error. -/
theorem streamChat_error_surface_witness :
    streamChat
      { ok := false, status := 402,
        errorBody := some (.jobj [ (str "error",
          .jobj [ (str "message", .jstr (str "Insufficient credits")) ]) ]),
        body := none } = .error (str "Insufficient credits") ∧
    streamChat { ok := true, status := 200, errorBody := none, body := none } =
      .error (str "Response body is not readable") := by
  constructor
  · rw [streamChat_error_surface.1 _ rfl]
    rfl
  · exact streamChat_error_surface.2.1 _ rfl rfl

/-- C10: when the source is exhausted before any sentinel the decoder
completes normally and the final unterminated line is never processed — a
trailing newline-free chunk never changes the output, the empty chunk list
yields nothing whatever the buffer holds, and even a complete content
event without its newline yields no fragment. -/
theorem streamDecode_exhausted_buffer_dropped :
    (∀ (chunks : List Str) (t : Str), '\n' ∉ t →
      streamDecode (chunks ++ [t]) = streamDecode chunks) ∧
    (∀ b : Str, runDecoder b [] = []) ∧
    streamDecode [eventLine (str "Hi")] = [] := by
  refine ⟨?_, fun b => rfl, by decide⟩
  intro chunks t ht
  exact runDecoder_append_no_nl chunks [] t (by simp) ht

/-- C10 witness: appending the newline-free "Hi" event as a final chunk
leaves the output unchanged. -/
theorem streamDecode_exhausted_buffer_dropped_witness :
    ('\n' ∉ eventLine (str "Hi")) ∧
    streamDecode [eventLine (str "A") ++ [ '\n' ], eventLine (str "Hi")] =
      streamDecode [eventLine (str "A") ++ [ '\n' ]] :=
  ⟨by decide, streamDecode_exhausted_buffer_dropped.1 [eventLine (str "A") ++ [ '\n' ]]
    (eventLine (str "Hi")) (by decide)⟩

theorem drop_eq_lastUpTo {α : Type} (n : Nat) (l : List α) :
    l.drop (l.length - n) = lastUpTo n l := by
  unfold lastUpTo
  rw [List.take_reverse, List.reverse_reverse]

/-- C5: the outgoing request's message list is exactly the system prompt,
then the last at-most-20 prior messages in their original order, then the
newly submitted user message, which appears at the end. -/
theorem buildChatMessages_shape (sys : Str) (prior : List StoreMessage) (u : Str) :
    buildChatMessages sys prior u =
      ({ role := .system, content := sys } : ChatMessage)
        :: (lastUpTo 20 prior).map toChatMessage
        ++ [ { role := .user, content := u } ] ∧
    (buildChatMessages sys prior u).head? =
      some { role := .system, content := sys } ∧
    (buildChatMessages sys prior u).getLast? =
      some { role := .user, content := u } := by
  refine ⟨?_, rfl, ?_⟩
  · simp only [buildChatMessages, drop_eq_lastUpTo]
  · simp only [buildChatMessages]
    rw [List.getLast?_concat]

/-- C6: an aborted turn keeps the partial assistant text, appends no
error-indicator message and leaves the mood as streaming set it (so it is
not forced to `confused`); any other failure keeps the partial text,
appends exactly one error-indicator message and forces `confused`. -/
theorem runTurn_cancel_and_failure (prior : List ChatMessage) (u : Str)
    (frags : List Str) (e : Str) :
    ((runTurn prior u frags .aborted).messages =
        prior ++ [ { role := .user, content := u },
          { role := .assistant, content := concatStr frags } ] ∧
      (runTurn prior u frags .aborted).mood = streamMood frags ∧
      (streamMood frags ≠ BuddyMood.confused →
        (runTurn prior u frags .aborted).mood ≠ BuddyMood.confused)) ∧
    ((runTurn prior u frags (.failed e)).messages =
        prior ++ [ { role := .user, content := u },
          { role := .assistant, content := concatStr frags },
          { role := .assistant, content := errText e } ] ∧
      (runTurn prior u frags (.failed e)).mood = BuddyMood.confused) := by
  refine ⟨⟨rfl, rfl, fun h => h⟩, ⟨?_, rfl⟩⟩
  simp [runTurn]

/-- C6 witness: aborting after the fragment "ok" leaves a non-`confused`
mood. -/
theorem runTurn_cancel_and_failure_witness :
    streamMood [ str "ok" ] ≠ BuddyMood.confused ∧
    (runTurn [] (str "hello") [ str "ok" ] .aborted).mood ≠ BuddyMood.confused :=
  ⟨by decide,
    (runTurn_cancel_and_failure [] (str "hello") [ str "ok" ] (str "x")).1.2.2 (by decide)⟩

end Buddy
